import Mathlib

set_option maxRecDepth 10000

/-!
Shallow embedding of `src/main.py` (socpaperbot): a bot that fetches journal
RSS feeds, filters and cleans entries, deduplicates them against a JSON
archive on disk, and posts new papers (or a random archived one as fallback).

Python strings are modelled as `List Char` (`PyStr`); Python dicts keyed by
link as ordered association lists (`Archive`), with `dictInsert` giving the
dict-assignment semantics (overwrite in place if the key exists, else append).
Side effects of a run (writing the archive file, calling `create_post`,
`time.sleep`) are modelled as an explicit trace of `Event`s.
-/

/-- Python `str`, modelled as a list of characters. -/
abbrev PyStr := List Char

/-- One entry record as built by `get_rss_feed` / stored in the archive:
fields `title`, `link`, `description`, `journal`. -/
structure Paper where
  title : PyStr
  link : PyStr
  description : PyStr
  journal : String
deriving DecidableEq

/-- A raw feedparser entry: each of `link`, `title`, `description` may be
missing (`entry.get(key, "")` supplies the default). -/
structure RawEntry where
  link : Option PyStr
  title : Option PyStr
  description : Option PyStr
deriving DecidableEq

/-- A Python dict from link to entry record, as an ordered association list
(insertion order preserved, keys unique when built by `dictInsert`). -/
abbrev Archive := List (PyStr × Paper)

/-- Observable side effects of a run: writing the archive file
(`json.dump`), calling `create_post`, and `time.sleep(random.randint(lo, hi))`
recorded with the bounds of the randomized delay. -/
inductive Event where
  | fileWrite (content : Archive)
  | post (text : PyStr)
  | sleep (lo hi : Nat)
deriving DecidableEq

/-- Python `d[k]` / `k in d` support: first (unique) binding of `k`. -/
def lookupA : Archive → PyStr → Option Paper
  | [], _ => none
  | kv :: rest, key => if kv.1 = key then some kv.2 else lookupA rest key

/-- Python `d[k] = v`: replace in place if the key is present, else append
(dict insertion-order semantics). -/
def dictInsert (d : Archive) (k : PyStr) (v : Paper) : Archive :=
  if (lookupA d k).isSome then d.map (fun kv => if kv.1 = k then (k, v) else kv)
  else d ++ [(k, v)]

/-- Python `str.strip()`: drop leading and trailing whitespace. -/
def pyStrip (l : PyStr) : PyStr :=
  ((l.dropWhile Char.isWhitespace).reverse.dropWhile Char.isWhitespace).reverse

/-- Helper for the tag regex `<[^>]+>`: split the characters after a `<` at
the first `>`, returning the characters strictly between and the remainder
after the `>`; `none` when no `>` follows. -/
def splitAtGt : PyStr → Option (PyStr × PyStr)
  | [] => none
  | c :: cs =>
    if c = '>' then some ([], cs)
    else
      match splitAtGt cs with
      | some pp => some (c :: pp.1, pp.2)
      | none => none

/-- Fuelled worker for `re.sub(r"<[^>]+>", "", text)`: leftmost-first removal
of every maximal `<...>` group with at least one character inside. `fuel`
bounds the recursion; `stripTags` supplies `text.length`, which is enough
because every step consumes at least one character. -/
def stripTagsGo : Nat → PyStr → PyStr
  | 0, l => l
  | _ + 1, [] => []
  | fuel + 1, c :: cs =>
    if c = '<' then
      match splitAtGt cs with
      | some pp =>
        if pp.1 = [] then c :: stripTagsGo fuel cs else stripTagsGo fuel pp.2
      | none => c :: stripTagsGo fuel cs
    else c :: stripTagsGo fuel cs

/-- `re.sub(r"<[^>]+>", "", text)` from `clean_abstract`. -/
def stripTags (l : PyStr) : PyStr := stripTagsGo l.length l

/-- Worker for `re.sub(r"^.*?\.", "", text, 1)`: `.` does not match a
newline, so the substitution removes the shortest prefix ending in `'.'`
provided no `'\n'` occurs before that first `'.'`; otherwise no match. -/
def dropThroughPeriod : PyStr → Option PyStr
  | [] => none
  | c :: cs => if c = '.' then some cs else if c = '\n' then none else dropThroughPeriod cs

/-- `re.sub(r"^.*?\.", "", text, 1)`: removes everything up to and including
the first period of the first line, or leaves the text unchanged. -/
def removeLeadSentence (l : PyStr) : PyStr := (dropThroughPeriod l).getD l

/-- `clean_abstract(text, journal)` from `src/main.py`. Note the
`Sociological Science` branch of the source computes
`text[start + len("Abstract") : end].strip()` but never assigns the result
back to `text`, so that branch has no effect on the returned value; the
embedding reflects this by leaving the text unchanged there. -/
def clean_abstract (text : PyStr) (journal : String) : PyStr :=
  let t := stripTags text
  let t :=
    if journal = "Socius" ∨ journal = "American Sociological Review (AoP)" ∨
        journal = "American Sociological Review" then
      removeLeadSentence t
    else if journal = "Sociological Science" then
      t
    else t
  pyStrip t

/-- What the spec says the `Sociological Science` branch does: return the
substring strictly between the first occurrence of `"Abstract"` and the last
occurrence of `"Close"`, stripped. Used only to exhibit the divergence of the
source from the claim; built from Python slice semantics
`text[text.find("Abstract") + 8 : text.rfind("Close")].strip()` for the case
where both markers are present. -/
def socSciExtract (text : PyStr) (startIdx endIdx : Nat) : PyStr :=
  pyStrip ((text.take endIdx).drop (startIdx + 8))

/-- `is_valid_paper(title, description)` from `src/main.py`. -/
def is_valid_paper (title description : PyStr) : Bool :=
  let title_lower := title.map Char.toLower
  decide (50 ≤ title.length) && decide (50 ≤ description.length) &&
    !(List.isPrefixOf "review".toList title_lower) &&
    !(List.isPrefixOf "corrigendum".toList title_lower)

/-- `entry.get("link", "")` etc.: the record built for one feed entry by the
dict comprehension in `get_rss_feed`, with `journal` set to the feed's name. -/
def entryToRecord (journal : String) (e : RawEntry) : PyStr × Paper :=
  (e.link.getD [],
   { title := e.title.getD [], link := e.link.getD [],
     description := e.description.getD [], journal := journal })

/-- `get_rss_feed(urls)` from `src/main.py`: fold over the feeds in order,
`results.update(...)` over each feed's entries in order (last write wins). -/
def get_rss_feed (feeds : List (String × List RawEntry)) : Archive :=
  feeds.foldl
    (fun results feed =>
      feed.2.foldl
        (fun res e =>
          let kv := entryToRecord feed.1 e
          dictInsert res kv.1 kv.2)
        results)
    []

/-- `filter_results(results)` from `src/main.py`: keep entries passing
`is_valid_paper` on the RAW title and description, rewriting only the
`description` field via `clean_abstract` (`{**v, "title": v["title"],
"description": clean_abstract(...)}`). -/
def filter_results (results : Archive) : Archive :=
  results.filterMap (fun kv =>
    if is_valid_paper kv.2.title kv.2.description then
      some (kv.1, { kv.2 with description := clean_abstract kv.2.description kv.2.journal })
    else none)

/-- Body of the merge loop of `write_json_from_rss`:
`if link not in archive: new_archive[link] = item_data`. The membership
guard consults the original `archive`, not `new_archive`. -/
def mergeStep (archive : Archive) (na : Archive) (kv : PyStr × Paper) : Archive :=
  if (lookupA archive kv.1).isSome then na else dictInsert na kv.1 kv.2

/-- The archive merge of `write_json_from_rss`:
`new_archive = archive.copy(); for link, item_data in filtered_results.items():
if link not in archive: new_archive[link] = item_data`. -/
def mergeArchive (archive : Archive) (filtered : Archive) : Archive :=
  filtered.foldl (mergeStep archive) archive

/-- Result of `write_json_from_rss`: the file-write events it performed, and
its return value `(filtered_results, archive)` — note it returns the archive
as LOADED, not the merged one. -/
structure WjfrResult where
  events : List Event
  filtered : Archive
  archive : Archive
deriving DecidableEq

/-- `write_json_from_rss(urls, filename)` from `src/main.py`. The `archive`
parameter is the mapping loaded from the file (`{}` when the file is
missing). The merged archive is dumped to the file if and only if it is
strictly longer than the loaded one. -/
def write_json_from_rss (feeds : List (String × List RawEntry)) (archive : Archive) :
    WjfrResult :=
  let results := get_rss_feed feeds
  let filtered := filter_results results
  let new_archive := mergeArchive archive filtered
  { events := if archive.length < new_archive.length then [Event.fileWrite new_archive] else [],
    filtered := filtered,
    archive := archive }

/-- The post text built in `main`:
`(f"{title}\n{link}\n{''.join(description)}"[:288] + "\n #sociology").replace("\n", " ")`
(`''.join` of a `str` is the identity). -/
def postText (p : Paper) : PyStr :=
  ((p.title ++ '\n' :: p.link ++ '\n' :: p.description).take 288 ++ "\n #sociology".toList).map
    (fun c => if c = '\n' then ' ' else c)

/-- The fallback guard `new_posts == 0 & (len(archive) > 2)` of `main`.
Python `&` binds tighter than `==`, so this parses as
`new_posts == (0 & (len(archive) > 2))`; `0 & b` is `0` for either bool, so
the guard is equivalent to `new_posts == 0`. The embedding mirrors the parse. -/
def fallback_condition (new_posts : Nat) (archive_size : Nat) : Bool :=
  new_posts == (0 &&& (if 2 < archive_size then 1 else 0))

/-- State of the new-post loop in `main`: the events emitted so far, the
entries passed to `create_post` so far (instrumentation recording each
`create_post` call of the loop), the evolving `archive` dict, and
`new_posts`. -/
structure LoopState where
  events : List Event
  posted : List (PyStr × Paper)
  arch : Archive
  n : Nat
deriving DecidableEq

/-- One iteration of `for k, v in pull.items()` in `main`: if `k not in
archive`, build the post string, `create_post`, sleep in `[60, 300]`,
`archive[k] = v`, `new_posts += 1`. -/
def loopStep (st : LoopState) (kv : PyStr × Paper) : LoopState :=
  if (lookupA st.arch kv.1).isSome then st
  else
    { events := st.events ++ [Event.post (postText kv.2), Event.sleep 60 300],
      posted := st.posted ++ [kv],
      arch := dictInsert st.arch kv.1 kv.2,
      n := st.n + 1 }

/-- The whole new-post loop of `main`, starting from the archive snapshot
returned by `write_json_from_rss`. -/
def mainLoop (pull : List (PyStr × Paper)) (archive : Archive) : LoopState :=
  pull.foldl loopStep { events := [], posted := [], arch := archive, n := 0 }

/-- Result of one `main()` run: full event trace, the entries posted as new,
the final in-memory archive dict, and the new-post counter. -/
structure RunResult where
  trace : List Event
  postedNew : List (PyStr × Paper)
  finalArchive : Archive
  new_posts : Nat
deriving DecidableEq

/-- `main()` from `src/main.py`. `pick` models `random.choice(list(archive.values()))`
of the fallback branch as an explicit choice function. -/
def mainRun (feeds : List (String × List RawEntry)) (archive0 : Archive)
    (pick : Archive → Paper) : RunResult :=
  let wr := write_json_from_rss feeds archive0
  let st := mainLoop wr.filtered wr.archive
  let fEvents :=
    if fallback_condition st.n st.arch.length then
      [Event.post (postText (pick st.arch)), Event.sleep 30 60]
    else []
  { trace := wr.events ++ st.events ++ fEvents,
    postedNew := st.posted,
    finalArchive := st.arch,
    new_posts := st.n }

/-- Default entry record (used only to make choice functions total). -/
def defaultPaper : Paper := { title := [], link := [], description := [], journal := "" }

/-- A concrete resolution of `random.choice`: pick the first archived paper. -/
def pickFirst (a : Archive) : Paper := (a.headD ([], defaultPaper)).2

/-! Concrete inputs used by witnesses and counterexamples. -/

/-- A 50-character title (passes the length check, not review/corrigendum). -/
def exTitle : PyStr := List.replicate 50 'T'

/-- A 60-character description with no markup, periods or whitespace, so
`clean_abstract` leaves it unchanged for a journal with no special rule. -/
def exDesc : PyStr := List.replicate 60 'd'

/-- A concrete link. -/
def exLink : PyStr := "https://x/1".toList

/-- A well-formed raw feed entry. -/
def exEntry : RawEntry := { link := some exLink, title := some exTitle, description := some exDesc }

/-- A single feed, named `"J"`, yielding the one well-formed entry. -/
def exFeeds : List (String × List RawEntry) := [("J", [exEntry])]

/-- The record `get_rss_feed`/`filter_results` produce for `exEntry`
(cleaning leaves `exDesc` unchanged). -/
def exPaper : Paper := { title := exTitle, link := exLink, description := exDesc, journal := "J" }

/-- The merged archive written by a run over `exFeeds` from an empty archive. -/
def exMerged : Archive := mergeArchive [] (filter_results (get_rss_feed exFeeds))

/-- A pre-run archive already containing `exLink`. -/
def exA5 : Archive := [(exLink, exPaper)]

/-- A pre-run archive with a key disjoint from the feed's link. -/
def exA6 : Archive := [("https://y/2".toList, exPaper)]

/-- An archive holding exactly 2 entries (for the fallback guard). -/
def exArchive2 : Archive := [(['a'], exPaper), (['b'], exPaper)]

/-- A raw description that is 61 characters long but whose first line ends in
a period, so the `"Socius"` cleaning rule shrinks it to the empty string. -/
def exRaw3 : Paper :=
  { title := exTitle, link := "l3".toList, description := List.replicate 60 'a' ++ ['.'],
    journal := "Socius" }

/-- What `filter_results` stores for `exRaw3`: the cleaned description is empty. -/
def exClean3 : Paper := { exRaw3 with description := [] }

/-- A Sociological Science description containing both markers. -/
def exSocSciText : PyStr := "Abstract REAL TEXT Close".toList

/-- A 49-character title. -/
def exT49 : PyStr := List.replicate 49 'T'

/-- A 50-character title starting with `"Review"`. -/
def exTRev50 : PyStr := "Review".toList ++ List.replicate 44 'a'

/-- A 50-character description. -/
def exD50 : PyStr := List.replicate 50 'b'

/-- A raw entry with no link field (feedparser key defaults to `""`). -/
def exNoLink : RawEntry := { link := none, title := some exTitle, description := some exDesc }

/-- A raw entry with no title field. -/
def exNoTitle : RawEntry := { link := some exLink, title := none, description := some exDesc }

/-- A feed whose only entry lacks a link. -/
def exFeeds9 : List (String × List RawEntry) := [("J", [exNoLink])]

/-- The record produced for the linkless entry: empty-string link and key. -/
def exPaper9 : Paper := { exPaper with link := [] }

/-! Helper lemmas about `lookupA` and `dictInsert`. -/

theorem lookupA_map_replace (d : Archive) (k : PyStr) (v : Paper) (k2 : PyStr)
    (h : k2 ≠ k) :
    lookupA (d.map (fun kv => if kv.1 = k then (k, v) else kv)) k2 = lookupA d k2 := by
  induction d with
  | nil => rfl
  | cons kv rest ih =>
    by_cases hk : kv.1 = k
    · have h1 : ¬ (k = k2) := fun he => h he.symm
      have h2 : ¬ (kv.1 = k2) := fun he => h (he.symm.trans hk)
      simp [lookupA, hk, h1, h2, ih]
    · by_cases hk2 : kv.1 = k2
      · simp [lookupA, hk, hk2, h]
      · simp [lookupA, hk, hk2, ih]

theorem lookupA_append_single (d : Archive) (k : PyStr) (v : Paper) (k2 : PyStr)
    (h : k2 ≠ k) : lookupA (d ++ [(k, v)]) k2 = lookupA d k2 := by
  induction d with
  | nil =>
    simp only [List.nil_append, lookupA]
    rw [if_neg (fun he => h he.symm)]
  | cons kv rest ih =>
    simp only [List.cons_append, lookupA]
    by_cases hk2 : kv.1 = k2
    · rw [if_pos hk2, if_pos hk2]
    · rw [if_neg hk2, if_neg hk2]
      exact ih

theorem lookupA_dictInsert_ne (d : Archive) (k : PyStr) (v : Paper) (k2 : PyStr)
    (h : k2 ≠ k) : lookupA (dictInsert d k v) k2 = lookupA d k2 := by
  unfold dictInsert
  split
  · exact lookupA_map_replace d k v k2 h
  · exact lookupA_append_single d k v k2 h

theorem isSome_lookupA_append_single (d : Archive) (k : PyStr) (v : Paper) :
    (lookupA (d ++ [(k, v)]) k).isSome := by
  induction d with
  | nil => simp [lookupA]
  | cons kv rest ih =>
    simp only [List.cons_append, lookupA]
    by_cases hk : kv.1 = k
    · rw [if_pos hk]; rfl
    · rw [if_neg hk]; exact ih

theorem isSome_lookupA_dictInsert_self (d : Archive) (k : PyStr) (v : Paper) :
    (lookupA (dictInsert d k v) k).isSome := by
  unfold dictInsert
  split
  · rename_i h
    induction d with
    | nil => simp [lookupA] at h
    | cons kv rest ih =>
      simp only [List.map_cons, lookupA]
      by_cases hk : kv.1 = k
      · rw [if_pos hk]
        simp [lookupA]
      · rw [if_neg hk]
        simp only [lookupA, if_neg hk]
        apply ih
        simpa [lookupA, if_neg hk] using h
  · exact isSome_lookupA_append_single d k v

theorem isSome_lookupA_dictInsert (d : Archive) (k : PyStr) (v : Paper) (k2 : PyStr)
    (h : (lookupA d k2).isSome) : (lookupA (dictInsert d k v) k2).isSome := by
  by_cases hk : k2 = k
  · subst hk; exact isSome_lookupA_dictInsert_self d k2 v
  · rw [lookupA_dictInsert_ne d k v k2 hk]; exact h

theorem dictInsert_length (d : Archive) (k : PyStr) (v : Paper) :
    (dictInsert d k v).length =
      if (lookupA d k).isSome then d.length else d.length + 1 := by
  unfold dictInsert
  split <;> simp

/-! Helper lemmas about the archive merge. -/

theorem merge_lookup_eq (a : Archive) (f : Archive) :
    ∀ (na : Archive) (k : PyStr), (lookupA a k).isSome → lookupA na k = lookupA a k →
      lookupA (f.foldl (mergeStep a) na) k = lookupA a k := by
  induction f with
  | nil => intro na k _ h2; simpa using h2
  | cons hd tl ih =>
    intro na k h1 h2
    simp only [List.foldl_cons]
    apply ih _ k h1
    unfold mergeStep
    split
    · exact h2
    · rename_i hg
      have hne : k ≠ hd.1 := by
        intro he; subst he; exact hg h1
      rw [lookupA_dictInsert_ne _ _ _ _ hne]; exact h2

theorem merge_isSome_mono (a : Archive) (f : Archive) :
    ∀ (na : Archive) (k : PyStr), (lookupA na k).isSome →
      (lookupA (f.foldl (mergeStep a) na) k).isSome := by
  induction f with
  | nil => intro na k h; simpa using h
  | cons hd tl ih =>
    intro na k h
    simp only [List.foldl_cons]
    apply ih
    unfold mergeStep
    split
    · exact h
    · exact isSome_lookupA_dictInsert _ _ _ _ h

theorem merge_mem_isSome (a : Archive) (f : Archive) :
    ∀ (na : Archive), (∀ k, (lookupA a k).isSome → (lookupA na k).isSome) →
      ∀ kv ∈ f, (lookupA (f.foldl (mergeStep a) na) kv.1).isSome := by
  induction f with
  | nil => intro na _ kv hkv; cases hkv
  | cons hd tl ih =>
    intro na hinv kv hkv
    simp only [List.foldl_cons]
    rcases List.mem_cons.mp hkv with he | ht
    · subst he
      apply merge_isSome_mono
      unfold mergeStep
      split
      · rename_i hg; exact hinv _ hg
      · exact isSome_lookupA_dictInsert_self _ _ _
    · apply ih
      · intro k hk
        unfold mergeStep
        split
        · exact hinv k hk
        · exact isSome_lookupA_dictInsert _ _ _ _ (hinv k hk)
      · exact ht

theorem mergeStep_length_ge (a na : Archive) (kv : PyStr × Paper) :
    na.length ≤ (mergeStep a na kv).length := by
  unfold mergeStep
  split
  · exact le_refl _
  · rw [dictInsert_length]; split <;> omega

theorem merge_length_mono (a : Archive) (f : Archive) :
    ∀ (na : Archive), na.length ≤ (f.foldl (mergeStep a) na).length := by
  induction f with
  | nil => intro na; exact le_refl _
  | cons hd tl ih =>
    intro na
    simp only [List.foldl_cons]
    exact le_trans (mergeStep_length_ge a na hd) (ih _)

theorem merge_eq_of_no_new (a : Archive) (f : Archive)
    (h : ∀ kv ∈ f, (lookupA a kv.1).isSome) :
    ∀ (na : Archive), f.foldl (mergeStep a) na = na := by
  induction f with
  | nil => intro na; rfl
  | cons hd tl ih =>
    intro na
    simp only [List.foldl_cons]
    have hstep : mergeStep a na hd = na := by
      unfold mergeStep
      rw [if_pos (h hd (List.mem_cons_self hd tl))]
    rw [hstep]
    exact ih (fun kv hm => h kv (List.mem_cons_of_mem hd hm)) na

theorem mergeStep_preserves_inv (a na : Archive) (kv : PyStr × Paper)
    (hle : a.length ≤ na.length)
    (hinv : na.length = a.length → ∀ k, (lookupA na k).isSome → (lookupA a k).isSome) :
    a.length ≤ (mergeStep a na kv).length ∧
      ((mergeStep a na kv).length = a.length →
        ∀ k, (lookupA (mergeStep a na kv) k).isSome → (lookupA a k).isSome) := by
  unfold mergeStep
  by_cases hg : (lookupA a kv.1).isSome
  · rw [if_pos hg]; exact ⟨hle, hinv⟩
  · rw [if_neg hg]
    constructor
    · calc a.length ≤ na.length := hle
        _ ≤ (dictInsert na kv.1 kv.2).length := by
            rw [dictInsert_length]; split <;> omega
    · intro heq
      rw [dictInsert_length] at heq
      split at heq
      · rename_i hs
        exact absurd (hinv heq kv.1 hs) hg
      · omega

theorem merge_length_lt_of_new (a : Archive) (f : Archive) :
    ∀ (na : Archive), a.length ≤ na.length →
      (na.length = a.length → ∀ k, (lookupA na k).isSome → (lookupA a k).isSome) →
      (∃ kv ∈ f, lookupA a kv.1 = none) →
      a.length < (f.foldl (mergeStep a) na).length := by
  induction f with
  | nil =>
    intro na _ _ hex
    rcases hex with ⟨kv, hm, _⟩
    cases hm
  | cons hd tl ih =>
    intro na hle hinv hex
    simp only [List.foldl_cons]
    rcases hex with ⟨kv, hm, hnone⟩
    rcases List.mem_cons.mp hm with he | ht
    · subst he
      have hg : ¬ (lookupA a kv.1).isSome := by simp [hnone]
      have hstep : a.length < (mergeStep a na kv).length := by
        unfold mergeStep
        rw [if_neg hg, dictInsert_length]
        split
        · rename_i hs
          rcases lt_or_eq_of_le hle with hlt | heq
          · omega
          · exact absurd (hinv heq.symm kv.1 hs) hg
        · omega
      exact lt_of_lt_of_le hstep (merge_length_mono a tl _)
    · rcases mergeStep_preserves_inv a na hd hle hinv with ⟨h1, h2⟩
      exact ih _ h1 h2 ⟨kv, ht, hnone⟩

theorem mergeArchive_lookup_eq (a : Archive) (f : Archive) (k : PyStr)
    (h : (lookupA a k).isSome) : lookupA (mergeArchive a f) k = lookupA a k :=
  merge_lookup_eq a f a k h rfl

theorem mergeArchive_mem_isSome (a : Archive) (f : Archive) (kv : PyStr × Paper)
    (h : kv ∈ f) : (lookupA (mergeArchive a f) kv.1).isSome :=
  merge_mem_isSome a f a (fun _ hk => hk) kv h

theorem mergeArchive_length_iff (a : Archive) (f : Archive) :
    a.length < (mergeArchive a f).length ↔ ∃ kv ∈ f, lookupA a kv.1 = none := by
  constructor
  · intro h
    by_contra hno
    push_neg at hno
    have hall : ∀ kv ∈ f, (lookupA a kv.1).isSome := fun kv hm =>
      Option.ne_none_iff_isSome.mp (hno kv hm)
    rw [mergeArchive, merge_eq_of_no_new a f hall a] at h
    omega
  · intro hex
    exact merge_length_lt_of_new a f a (le_refl _) (fun _ k hk => hk) hex

/-! Helper lemmas about `filter_results`. -/

theorem mem_filter_results (r : Archive) (kv : PyStr × Paper) :
    kv ∈ filter_results r ↔ ∃ w ∈ r, is_valid_paper w.2.title w.2.description = true ∧
      kv = (w.1, { w.2 with description := clean_abstract w.2.description w.2.journal }) := by
  unfold filter_results
  rw [List.mem_filterMap]
  constructor
  · rintro ⟨w, hw, hf⟩
    by_cases h : is_valid_paper w.2.title w.2.description = true
    · rw [if_pos h] at hf
      exact ⟨w, hw, h, (Option.some_inj.mp hf).symm⟩
    · rw [if_neg h] at hf
      cases hf
  · rintro ⟨w, hw, h, he⟩
    exact ⟨w, hw, by rw [if_pos h, he]⟩

theorem filter_results_eq (r : Archive) :
    filter_results r =
      (r.filter fun kv => is_valid_paper kv.2.title kv.2.description).map
        (fun kv =>
          (kv.1, { kv.2 with description := clean_abstract kv.2.description kv.2.journal })) := by
  induction r with
  | nil => rfl
  | cons hd tl ih =>
    by_cases h : is_valid_paper hd.2.title hd.2.description = true
    · simp only [filter_results] at ih ⊢
      simp [List.filterMap_cons, List.filter_cons, h, ih]
    · have hf : is_valid_paper hd.2.title hd.2.description = false := by
        rwa [Bool.not_eq_true] at h
      simp only [filter_results] at ih ⊢
      simp [List.filterMap_cons, List.filter_cons, hf, ih]

/-! Helper lemmas about the new-post loop of `main`. -/

theorem loop_events_classify (pull : List (PyStr × Paper)) :
    ∀ (st0 : LoopState) (e : Event), e ∈ (pull.foldl loopStep st0).events →
      e ∈ st0.events ∨ (∃ p : Paper, e = Event.post (postText p)) ∨
        e = Event.sleep 60 300 := by
  induction pull with
  | nil => intro st0 e h; exact Or.inl h
  | cons hd tl ih =>
    intro st0 e h
    simp only [List.foldl_cons] at h
    rcases ih _ e h with h1 | h2 | h3
    · unfold loopStep at h1
      split at h1
      · exact Or.inl h1
      · simp only [List.mem_append, List.mem_cons, List.mem_singleton,
          List.not_mem_nil, or_false] at h1
        rcases h1 with h1a | h1b | h1c
        · exact Or.inl h1a
        · exact Or.inr (Or.inl ⟨hd.2, h1b⟩)
        · exact Or.inr (Or.inr h1c)
    · exact Or.inr (Or.inl h2)
    · exact Or.inr (Or.inr h3)

theorem loop_no_fileWrite (pull : List (PyStr × Paper)) :
    ∀ (st0 : LoopState) (c : Archive),
      Event.fileWrite c ∈ (pull.foldl loopStep st0).events →
        Event.fileWrite c ∈ st0.events := by
  induction pull with
  | nil => intro st0 c h; exact h
  | cons hd tl ih =>
    intro st0 c h
    simp only [List.foldl_cons] at h
    have h1 := ih _ c h
    unfold loopStep at h1
    split at h1
    · exact h1
    · simp only [List.mem_append, List.mem_cons, List.mem_singleton,
        List.not_mem_nil, or_false] at h1
      rcases h1 with h1a | h1b | h1c
      · exact h1a
      · cases h1b
      · cases h1c

theorem loop_posted_sub (pull : List (PyStr × Paper)) :
    ∀ (st0 : LoopState) (kv : PyStr × Paper),
      kv ∈ (pull.foldl loopStep st0).posted → kv ∈ st0.posted ∨ kv ∈ pull := by
  induction pull with
  | nil => intro st0 kv h; exact Or.inl h
  | cons hd tl ih =>
    intro st0 kv h
    simp only [List.foldl_cons] at h
    rcases ih _ kv h with h1 | h2
    · unfold loopStep at h1
      split at h1
      · exact Or.inl h1
      · simp only [List.mem_append, List.mem_singleton] at h1
        rcases h1 with h1a | h1b
        · exact Or.inl h1a
        · exact Or.inr (h1b ▸ List.mem_cons_self hd tl)
    · exact Or.inr (List.mem_cons_of_mem hd h2)

theorem loop_posted_fresh (a0 : Archive) (pull : List (PyStr × Paper)) :
    ∀ (st0 : LoopState),
      (∀ k, (lookupA a0 k).isSome → (lookupA st0.arch k).isSome) →
      (∀ kv ∈ st0.posted, lookupA a0 kv.1 = none) →
      ∀ kv ∈ (pull.foldl loopStep st0).posted, lookupA a0 kv.1 = none := by
  induction pull with
  | nil => intro st0 _ hp kv h; exact hp kv h
  | cons hd tl ih =>
    intro st0 harch hp kv h
    simp only [List.foldl_cons] at h
    by_cases hg : (lookupA st0.arch hd.1).isSome
    · rw [show loopStep st0 hd = st0 from by unfold loopStep; rw [if_pos hg]] at h
      exact ih st0 harch hp kv h
    · have hstep : loopStep st0 hd =
          { events := st0.events ++ [Event.post (postText hd.2), Event.sleep 60 300],
            posted := st0.posted ++ [hd],
            arch := dictInsert st0.arch hd.1 hd.2,
            n := st0.n + 1 } := by
        unfold loopStep; rw [if_neg hg]
      rw [hstep] at h
      apply ih _ _ _ kv h
      · intro k hk
        exact isSome_lookupA_dictInsert _ _ _ _ (harch k hk)
      · intro kv2 hkv2
        simp only [List.mem_append, List.mem_singleton] at hkv2
        rcases hkv2 with h2a | h2b
        · exact hp kv2 h2a
        · subst h2b
          have : ¬ (lookupA a0 kv2.1).isSome := fun hsome => hg (harch kv2.1 hsome)
          exact Option.not_isSome_iff_eq_none.mp this

/-! Helper lemma about the post text. -/

theorem postText_length (p : Paper) : (postText p).length ≤ 300 := by
  unfold postText
  rw [List.length_map, List.length_append, List.length_take]
  have h12 : ("\n #sociology".toList).length = 12 := by decide
  have hmin := Nat.min_le_left 288
    ((p.title ++ '\n' :: p.link ++ '\n' :: p.description).length)
  omega

/-! Structural equations for the run model (all definitional). -/

theorem mainLoop_def (pull : List (PyStr × Paper)) (archive : Archive) :
    mainLoop pull archive =
      pull.foldl loopStep { events := [], posted := [], arch := archive, n := 0 } := rfl

theorem wjfr_events_def (feeds : List (String × List RawEntry)) (archive0 : Archive) :
    (write_json_from_rss feeds archive0).events =
      if archive0.length <
          (mergeArchive archive0 (filter_results (get_rss_feed feeds))).length then
        [Event.fileWrite (mergeArchive archive0 (filter_results (get_rss_feed feeds)))]
      else [] := rfl

theorem mainRun_trace_def (feeds : List (String × List RawEntry)) (archive0 : Archive)
    (pick : Archive → Paper) :
    (mainRun feeds archive0 pick).trace =
      ((write_json_from_rss feeds archive0).events ++
        (mainLoop (filter_results (get_rss_feed feeds)) archive0).events) ++
        (if fallback_condition (mainLoop (filter_results (get_rss_feed feeds)) archive0).n
            (mainLoop (filter_results (get_rss_feed feeds)) archive0).arch.length then
          [Event.post
              (postText (pick (mainLoop (filter_results (get_rss_feed feeds)) archive0).arch)),
            Event.sleep 30 60]
        else []) := rfl

theorem mainRun_postedNew_def (feeds : List (String × List RawEntry)) (archive0 : Archive)
    (pick : Archive → Paper) :
    (mainRun feeds archive0 pick).postedNew =
      (mainLoop (filter_results (get_rss_feed feeds)) archive0).posted := rfl

/-! Claim theorems. -/

/-- Claim C1: the source guards the random-archive fallback with
`new_posts == 0 & (len(archive) > 2)`, which parses as
`new_posts == (0 & (len(archive) > 2))`, i.e. `new_posts == 0`: the
archive-size conjunct is dead. This theorem evaluates the code at the failing
input: a run with no fetched entries over an archive of exactly 2 entries
performs the fallback post, although the claim (and the intended guard, whose
`(len(archive) > 2)` subexpression is otherwise without effect) says no
fallback post is made when the archive has 2 or fewer entries. -/
theorem C1_fallback_fires_with_two_entry_archive :
    exArchive2.length = 2 ∧
    (mainRun [] exArchive2 pickFirst).new_posts = 0 ∧
    fallback_condition 0 exArchive2.length = true ∧
    (mainRun [] exArchive2 pickFirst).trace =
      [Event.post (postText (pickFirst exArchive2)), Event.sleep 30 60] := by decide

/-- Claim C4: for journal `"Sociological Science"`, `clean_abstract` computes
`text[start + len("Abstract") : end].strip()` but never assigns it back, so
on a text containing both markers it returns the text unchanged instead of
the substring strictly between the first `"Abstract"` and the last `"Close"`
(here `socSciExtract` with `find`/`rfind` indices 0 and 19 gives the value
the claim prescribes, `"REAL TEXT"`). -/
theorem C4_sociological_science_extraction_discarded :
    clean_abstract exSocSciText "Sociological Science" = exSocSciText ∧
    socSciExtract exSocSciText 0 19 = "REAL TEXT".toList ∧
    clean_abstract exSocSciText "Sociological Science" ≠ socSciExtract exSocSciText 0 19 := by
  decide

/-- Claim C8 (counterexample): a title of exactly 50 characters starting with
`"Review"`, with a 50-character description, is rejected by
`is_valid_paper` — refuting the claim's clause that any entry with a
50-character title and a description of at least 50 characters is accepted. -/
theorem C8_counterexample_fifty_char_review_title :
    exTRev50.length = 50 ∧ 50 ≤ exD50.length ∧
    is_valid_paper exTRev50 exD50 = false := by decide

/-- Claim C8 (amended): `is_valid_paper` rejects every 49-character title;
accepts every entry whose title has exactly 50 characters and description at
least 50 characters PROVIDED the lowercased title does not start with
`"review"` or `"corrigendum"`; and rejects every title whose lowercased form
starts with `"review"` or `"corrigendum"`, regardless of length. -/
theorem C8_amended_validity_filter (t d : PyStr) :
    (t.length = 49 → is_valid_paper t d = false) ∧
    (t.length = 50 → 50 ≤ d.length →
      List.isPrefixOf "review".toList (t.map Char.toLower) = false →
      List.isPrefixOf "corrigendum".toList (t.map Char.toLower) = false →
      is_valid_paper t d = true) ∧
    ((List.isPrefixOf "review".toList (t.map Char.toLower) = true ∨
        List.isPrefixOf "corrigendum".toList (t.map Char.toLower) = true) →
      is_valid_paper t d = false) := by
  have hval : is_valid_paper t d =
      (decide (50 ≤ t.length) && decide (50 ≤ d.length) &&
        !(List.isPrefixOf "review".toList (t.map Char.toLower)) &&
        !(List.isPrefixOf "corrigendum".toList (t.map Char.toLower))) := rfl
  refine ⟨?_, ?_, ?_⟩
  · intro h
    have h1 : decide (50 ≤ t.length) = false := by rw [h]; decide
    rw [hval, h1]
    simp
  · intro h1 h2 h3 h4
    have ht : decide (50 ≤ t.length) = true := by rw [h1]; decide
    have hd : decide (50 ≤ d.length) = true := decide_eq_true h2
    rw [hval, h3, h4, ht, hd]
    rfl
  · intro h
    rw [hval]
    rcases h with h | h
    · rw [h]; simp
    · rw [h]; simp

/-- Claim C8 (witness): the amended theorem applied at concrete inputs: a
49-character title is rejected, a clean 50-character title with 50-character
description is accepted, and a 50-character `"Review..."` title is rejected. -/
theorem C8_amended_validity_filter_witness :
    is_valid_paper exT49 exD50 = false ∧
    is_valid_paper exTitle exD50 = true ∧
    is_valid_paper exTRev50 exD50 = false :=
  ⟨(C8_amended_validity_filter exT49 exD50).1 (by decide),
   (C8_amended_validity_filter exTitle exD50).2.1 (by decide) (by decide) (by decide) (by decide),
   (C8_amended_validity_filter exTRev50 exD50).2.2 (Or.inl (by decide))⟩

/-- Claim C3 (counterexample): `filter_results` retains an entry whose RAW
description is 61 characters long although its CLEANED description is empty —
so the 50-character minimum is evaluated on the raw feed text, not on the
cleaned text; under the claim this entry would have been rejected. -/
theorem C3_counterexample_filter_on_raw_description :
    filter_results [(exRaw3.link, exRaw3)] = [(exRaw3.link, exClean3)] ∧
    exClean3.description = clean_abstract exRaw3.description exRaw3.journal ∧
    exClean3.description.length < 50 ∧
    is_valid_paper exClean3.title exClean3.description = false := by decide

/-- Claim C3 (amended): the pipeline order is the reverse of the claim:
`filter_results` applies `is_valid_paper` to the RAW title and description of
each entry, and `clean_abstract` is applied afterwards, only to the retained
entries' descriptions. -/
theorem C3_amended_filter_raw_then_clean (results : Archive) :
    filter_results results =
      (results.filter fun kv => is_valid_paper kv.2.title kv.2.description).map
        (fun kv =>
          (kv.1, { kv.2 with description := clean_abstract kv.2.description kv.2.journal })) :=
  filter_results_eq results

/-- Claim C5: a Paper whose link is a key of the archive loaded at the start
of a run is never passed to `create_post` as a new post in that run: the loop
in `main` posts only candidates whose link is absent from the (evolving
superset of the) pre-run archive snapshot. -/
theorem C5_pre_archived_never_posted_as_new (feeds : List (String × List RawEntry))
    (archive0 : Archive) (pick : Archive → Paper) (k : PyStr)
    (h : (lookupA archive0 k).isSome = true) :
    ∀ kv ∈ (mainRun feeds archive0 pick).postedNew, kv.1 ≠ k := by
  intro kv hkv he
  rw [mainRun_postedNew_def, mainLoop_def] at hkv
  have hfresh := loop_posted_fresh archive0 (filter_results (get_rss_feed feeds))
    { events := [], posted := [], arch := archive0, n := 0 }
    (fun _ hk2 => hk2) (fun kv2 h2 => absurd h2 (List.not_mem_nil kv2)) kv hkv
  rw [he] at hfresh
  rw [hfresh] at h
  cases h

/-- Claim C5 (witness): with `exLink` already archived, a run over a feed
producing exactly that link posts nothing new. -/
theorem C5_pre_archived_never_posted_as_new_witness :
    (lookupA exA5 exLink).isSome = true ∧
    ∀ kv ∈ (mainRun exFeeds exA5 pickFirst).postedNew, kv.1 ≠ exLink :=
  ⟨by decide, C5_pre_archived_never_posted_as_new exFeeds exA5 pickFirst exLink (by decide)⟩

/-- Claim C6: the archive merge of `write_json_from_rss` inserts only links
absent from the loaded archive — the binding of every pre-existing link is
unchanged — and the archive file is written if and only if at least one new
link was inserted (equivalently, the merged archive is strictly longer than
the loaded one). -/
theorem C6_merge_append_only_and_write_iff (feeds : List (String × List RawEntry))
    (archive : Archive) :
    (∀ k, (lookupA archive k).isSome = true →
        lookupA (mergeArchive archive (filter_results (get_rss_feed feeds))) k =
          lookupA archive k) ∧
    ((write_json_from_rss feeds archive).events =
        [Event.fileWrite (mergeArchive archive (filter_results (get_rss_feed feeds)))] ↔
      ∃ kv ∈ filter_results (get_rss_feed feeds), lookupA archive kv.1 = none) := by
  constructor
  · intro k hk
    exact mergeArchive_lookup_eq _ _ k hk
  · rw [wjfr_events_def]
    constructor
    · intro h
      by_cases hc : archive.length <
          (mergeArchive archive (filter_results (get_rss_feed feeds))).length
      · exact (mergeArchive_length_iff _ _).mp hc
      · rw [if_neg hc] at h
        cases h
    · intro h
      rw [if_pos ((mergeArchive_length_iff _ _).mpr h)]

/-- Claim C6 (witness): over a pre-run archive holding an unrelated link, the
run over `exFeeds` leaves that link's binding unchanged and does write the
file, since the feed contributes a new link. -/
theorem C6_merge_append_only_and_write_iff_witness :
    lookupA (mergeArchive exA6 (filter_results (get_rss_feed exFeeds))) "https://y/2".toList =
      lookupA exA6 "https://y/2".toList ∧
    (write_json_from_rss exFeeds exA6).events =
      [Event.fileWrite (mergeArchive exA6 (filter_results (get_rss_feed exFeeds)))] :=
  ⟨(C6_merge_append_only_and_write_iff exFeeds exA6).1 "https://y/2".toList (by decide),
   (C6_merge_append_only_and_write_iff exFeeds exA6).2.mpr
     ⟨(exLink, exPaper), by decide, by decide⟩⟩

/-- Claim C9 (counterexample): an entry lacking a link is NOT skipped: it is
processed under the empty-string key, passed to `create_post`, recorded in
the in-memory archive, and written to the archive file. -/
theorem C9_counterexample_linkless_entry_published :
    exNoLink.link = none ∧
    (mainRun exFeeds9 [] pickFirst).postedNew = [([], exPaper9)] ∧
    (lookupA (mainRun exFeeds9 [] pickFirst).finalArchive []).isSome = true ∧
    (write_json_from_rss exFeeds9 []).events = [Event.fileWrite [([], exPaper9)]] := by
  decide

/-- Claim C9 (amended): an entry lacking a TITLE is skipped — its record gets
the empty title, fails `is_valid_paper`, and no retained entry has a title
shorter than 50 characters, so it is never archived or published; an entry
lacking a link, by contrast, is processed under the empty-string link (see
the counterexample). -/
theorem C9_amended_titleless_entries_skipped (feeds : List (String × List RawEntry))
    (journal : String) (e : RawEntry) (kv : PyStr × Paper) :
    (e.title = none →
      is_valid_paper (entryToRecord journal e).2.title
        (entryToRecord journal e).2.description = false) ∧
    (kv ∈ filter_results (get_rss_feed feeds) → 50 ≤ kv.2.title.length) := by
  constructor
  · intro h
    have ht : (entryToRecord journal e).2.title = [] := by
      simp [entryToRecord, h]
    have h1 : decide (50 ≤ (entryToRecord journal e).2.title.length) = false := by
      rw [ht]; decide
    have hval : is_valid_paper (entryToRecord journal e).2.title
        (entryToRecord journal e).2.description =
        (decide (50 ≤ (entryToRecord journal e).2.title.length) &&
          decide (50 ≤ (entryToRecord journal e).2.description.length) &&
          !(List.isPrefixOf "review".toList
              ((entryToRecord journal e).2.title.map Char.toLower)) &&
          !(List.isPrefixOf "corrigendum".toList
              ((entryToRecord journal e).2.title.map Char.toLower))) := rfl
    rw [hval, h1]
    simp
  · intro h
    rcases (mem_filter_results _ kv).mp h with ⟨w, _, hvalid, he⟩
    have hlen : 50 ≤ w.2.title.length := by
      have h2 := hvalid
      simp only [is_valid_paper, Bool.and_eq_true, decide_eq_true_eq] at h2
      exact h2.1.1.1
    have ht : kv.2.title = w.2.title := by rw [he]
    rw [ht]
    exact hlen

/-- Claim C9 (witness): the amended theorem applied at a concrete titleless
entry (rejected by the filter) and at the retained entry of `exFeeds` (whose
title has 50 characters). -/
theorem C9_amended_titleless_entries_skipped_witness :
    is_valid_paper (entryToRecord "J" exNoTitle).2.title
      (entryToRecord "J" exNoTitle).2.description = false ∧
    50 ≤ (exLink, exPaper).2.title.length :=
  ⟨(C9_amended_titleless_entries_skipped exFeeds "J" exNoTitle (exLink, exPaper)).1 rfl,
   (C9_amended_titleless_entries_skipped exFeeds "J" exNoTitle (exLink, exPaper)).2 (by decide)⟩

/-- Claim C10: `filter_results` is a frame-preserving filter: every retained
entry's key occurs in the input, and the retained record keeps the input's
`title`, `link` and `journal` fields, only the `description` being rewritten
by `clean_abstract`. -/
theorem C10_filter_results_frame (results : Archive) (kv : PyStr × Paper)
    (h : kv ∈ filter_results results) :
    ∃ v : Paper, (kv.1, v) ∈ results ∧ kv.2.title = v.title ∧ kv.2.link = v.link ∧
      kv.2.journal = v.journal ∧ kv.2.description = clean_abstract v.description v.journal := by
  rcases (mem_filter_results _ kv).mp h with ⟨w, hw, _, he⟩
  refine ⟨w.2, ?_, ?_, ?_, ?_, ?_⟩
  · rw [he]; exact hw
  · rw [he]
  · rw [he]
  · rw [he]
  · rw [he]

/-- Claim C10 (witness): the frame theorem applied to the single retained
entry of a concrete one-entry input. -/
theorem C10_filter_results_frame_witness :
    (exLink, exPaper) ∈ filter_results [(exLink, exPaper)] ∧
    ∃ v : Paper, ((exLink, exPaper).1, v) ∈ [(exLink, exPaper)] ∧
      (exLink, exPaper).2.title = v.title ∧ (exLink, exPaper).2.link = v.link ∧
      (exLink, exPaper).2.journal = v.journal ∧
      (exLink, exPaper).2.description = clean_abstract v.description v.journal :=
  ⟨by decide, C10_filter_results_frame [(exLink, exPaper)] (exLink, exPaper) (by decide)⟩

/-- No event after `write_json_from_rss` returns is a file write: the
new-post loop and the fallback branch only post and sleep. -/
theorem run_tail_no_fileWrite (feeds : List (String × List RawEntry)) (archive0 : Archive)
    (pick : Archive → Paper) (c : Archive) :
    Event.fileWrite c ∉
      ((mainLoop (filter_results (get_rss_feed feeds)) archive0).events ++
        (if fallback_condition (mainLoop (filter_results (get_rss_feed feeds)) archive0).n
            (mainLoop (filter_results (get_rss_feed feeds)) archive0).arch.length then
          [Event.post
              (postText (pick (mainLoop (filter_results (get_rss_feed feeds)) archive0).arch)),
            Event.sleep 30 60]
        else [])) := by
  intro hc
  rcases List.mem_append.mp hc with h1 | h2
  · rw [mainLoop_def] at h1
    exact absurd (loop_no_fileWrite _ _ c h1) (List.not_mem_nil _)
  · split at h2
    · simp at h2
    · simp at h2

/-- Claim C2 (counterexample): over an empty pre-run archive, a feed with one
new paper yields the trace `[fileWrite, post, sleep]`: the archive file is
updated with the newly discovered link (present in the written content,
absent from the pre-run archive) strictly BEFORE the post for that paper is
made, so a crash between the two records the link as published without it
having been posted — refuting the claim. -/
theorem C2_counterexample_archive_written_before_post :
    lookupA ([] : Archive) exLink = none ∧
    (lookupA exMerged exLink).isSome = true ∧
    (mainRun exFeeds [] pickFirst).trace =
      [Event.fileWrite exMerged, Event.post (postText exPaper), Event.sleep 60 300] := by
  decide

/-- Claim C2 (amended): the run updates the archive file BEFORE posting: in
every run trace each file write precedes every `create_post` call, and the
written content already contains the link of every entry subsequently posted
as new. At-most-one-post-per-link across crash restarts therefore still
holds (a restarted run finds each such link archived and never re-posts it),
but through the opposite ordering of the claim: a crash between the file
write and a post records a link as published without it having been posted. -/
theorem C2_amended_file_write_precedes_posts (feeds : List (String × List RawEntry))
    (archive0 : Archive) (pick : Archive → Paper) (i j : Nat) (content : Archive) (t : PyStr)
    (hi : (mainRun feeds archive0 pick).trace[i]? = some (Event.fileWrite content))
    (hj : (mainRun feeds archive0 pick).trace[j]? = some (Event.post t)) :
    i < j ∧ ∀ kv ∈ (mainRun feeds archive0 pick).postedNew,
      (lookupA content kv.1).isSome = true := by
  have htr := mainRun_trace_def feeds archive0 pick
  rw [List.append_assoc] at htr
  rw [htr, wjfr_events_def] at hi hj
  by_cases hc : archive0.length <
      (mergeArchive archive0 (filter_results (get_rss_feed feeds))).length
  · rw [if_pos hc] at hi hj
    rcases i with _ | i2
    · rw [List.singleton_append, List.getElem?_cons_zero] at hi
      have hcontent : content =
          mergeArchive archive0 (filter_results (get_rss_feed feeds)) := by
        injection hi with hi2
        injection hi2 with hi3
        exact hi3.symm
      rcases j with _ | j2
      · rw [List.singleton_append, List.getElem?_cons_zero] at hj
        injection hj with hj2
        exact Event.noConfusion hj2
      · refine ⟨by omega, ?_⟩
        intro kv hkv
        rw [mainRun_postedNew_def, mainLoop_def] at hkv
        rcases loop_posted_sub _ _ kv hkv with hp0 | hpl
        · exact absurd hp0 (List.not_mem_nil _)
        · rw [hcontent]
          exact mergeArchive_mem_isSome archive0 _ kv hpl
    · rw [List.singleton_append, List.getElem?_cons_succ] at hi
      exact absurd (List.getElem?_mem hi) (run_tail_no_fileWrite feeds archive0 pick content)
  · rw [if_neg hc, List.nil_append] at hi
    exact absurd (List.getElem?_mem hi) (run_tail_no_fileWrite feeds archive0 pick content)

/-- Claim C2 (witness): in the concrete run over `exFeeds`, the file write
sits at index 0 and the post at index 1, and the amended theorem yields the
ordering and the containment of the posted link in the written content. -/
theorem C2_amended_file_write_precedes_posts_witness :
    (mainRun exFeeds [] pickFirst).trace[0]? = some (Event.fileWrite exMerged) ∧
    (mainRun exFeeds [] pickFirst).trace[1]? = some (Event.post (postText exPaper)) ∧
    (0 < 1 ∧ ∀ kv ∈ (mainRun exFeeds [] pickFirst).postedNew,
      (lookupA exMerged kv.1).isSome = true) :=
  ⟨by decide, by decide,
   C2_amended_file_write_precedes_posts exFeeds [] pickFirst 0 1 exMerged (postText exPaper)
     (by decide) (by decide)⟩

/-- Claim C7: every text handed to `create_post` in a run — whether by the
new-post loop or by the random-archive fallback — has length at most 300
characters: the title/link/description concatenation is truncated to 288
characters and the fixed 12-character `"\n #sociology"` suffix is appended
after truncation. -/
theorem C7_post_text_within_limit (feeds : List (String × List RawEntry))
    (archive0 : Archive) (pick : Archive → Paper) (t : PyStr)
    (h : Event.post t ∈ (mainRun feeds archive0 pick).trace) : t.length ≤ 300 := by
  rw [mainRun_trace_def] at h
  rcases List.mem_append.mp h with h12 | h3
  · rcases List.mem_append.mp h12 with h1 | h2
    · rw [wjfr_events_def] at h1
      split at h1
      · simp at h1
      · simp at h1
    · rw [mainLoop_def] at h2
      rcases loop_events_classify _ _ _ h2 with ha | ⟨p, hp⟩ | hs
      · exact absurd ha (List.not_mem_nil _)
      · injection hp with hp2
        rw [hp2]
        exact postText_length p
      · exact Event.noConfusion hs
  · split at h3
    · simp only [List.mem_cons, List.not_mem_nil, or_false] at h3
      rcases h3 with h3a | h3b
      · injection h3a with h3c
        rw [h3c]
        exact postText_length _
      · exact Event.noConfusion h3b
    · exact absurd h3 (List.not_mem_nil _)

/-- Claim C7 (witness): the concrete run over `exFeeds` posts `exPaper`, and
the theorem bounds that post text by 300 characters. -/
theorem C7_post_text_within_limit_witness :
    Event.post (postText exPaper) ∈ (mainRun exFeeds [] pickFirst).trace ∧
    (postText exPaper).length ≤ 300 :=
  ⟨by decide, C7_post_text_within_limit exFeeds [] pickFirst (postText exPaper) (by decide)⟩
